import Mathlib

/-!
Verification of the `elysia` agent-execution core.

This file shallowly embeds the parts of the repository that the checked
claims are about:

* `src/elysia/api/agent_executor.py` — `ExecutionContext`, `AgentExecutor`
  (`execute_agent`, `_execute_with_tools`, `cancel_execution`);
* `src/elysia/api/custom_tools.py` — `SafeMath.__call__`,
  `EnvironmentSummary.__call__`, `HiddenStoreConditionalTool.is_tool_available`;
* `src/elysia/api/multi_agent.py` — `MultiAgentOrchestrator`
  (`start_agent`, `stop_agent`, `send_message`, `broadcast_message`,
  `execute_coordinated_task`).

Python dictionaries keyed by strings are modelled as lists of keys (or
association lists) with the no-duplicate-keys dict invariant stated as a
hypothesis where it is needed; Python floats arising in `SafeMath` are
modelled as rationals (every concrete value the claims mention is exactly
representable); wall-clock instants are modelled as natural numbers of
milliseconds, so that Python's `int(time.time())` is `ms / 1000`.
-/

namespace Elysia

/-! ### Python decimal rendering of a natural number

`f"{...}_{int(time.time())}"` renders the integer in decimal.  We model
`str(n)` for a natural number explicitly (fuel-structural so that the kernel
can evaluate it): little-endian digits of `n`, reversed, with `str(0) = "0"`.
-/

/-- Little-endian decimal digit characters of `n` (empty for `0`);
`fuel ≥ n` makes the recursion structural. -/
def natDecAux : Nat → Nat → List Char
  | 0, _ => []
  | fuel + 1, n => if n = 0 then [] else Nat.digitChar (n % 10) :: natDecAux fuel (n / 10)

/-- The decimal digit characters of `n`, most significant first; `0 ↦ "0"`.
This is what Python's `str`/f-string interpolation produces for a
non-negative integer. -/
def natDecimalChars (n : Nat) : List Char :=
  if n = 0 then ['0'] else (natDecAux n n).reverse

/-- Python `str(n)` for a natural number `n`. -/
def pyStr (n : Nat) : String :=
  String.mk (natDecimalChars n)

/-- Numeric value of a decimal digit character (inverse of `Nat.digitChar`
on digits `< 10`). -/
def charVal (c : Char) : Nat := c.toNat - 48

/-! ### `ExecutionContext.__init__` (`agent_executor.py`, lines 15–23) -/

/-- `f"{agent_name}_{int(time.time())}"` — the execution id assigned in
`ExecutionContext.__init__`.  `nowMs` is the creation instant in
milliseconds, so `int(time.time())` is `nowMs / 1000`. -/
def executionId (agent_name : String) (nowMs : Nat) : String :=
  agent_name ++ "_" ++ pyStr (nowMs / 1000)

/-- The fields of `ExecutionContext` relevant to the claims: name, creation
instant and derived id.  (`task`, the step log, `environment` and
`end_time` do not participate in the table/history/id claims; the step log
of the dispatch loop is modelled separately below.) -/
structure ExecutionContext where
  agent_name : String
  startMs : Nat
  execution_id : String
deriving DecidableEq, Repr

/-- `ExecutionContext(agent_name, task)` — records creation time and
derives the execution id. -/
def mkExecutionContext (agent_name : String) (nowMs : Nat) : ExecutionContext :=
  { agent_name := agent_name, startMs := nowMs
    execution_id := executionId agent_name nowMs }

/-! ### `AgentExecutor` state (`agent_executor.py`, lines 46–49) -/

/-- `self.active_executions : Dict[str, ExecutionContext]` modelled by its
key list, and `self.execution_history : List[ExecutionContext]` modelled by
the execution ids of the archived contexts. -/
structure ExecutorState where
  active : List String
  history : List String
deriving DecidableEq, Repr

/-- Python dict insertion `d[k] = v` at the level of the key list: assigning
an existing key overwrites its value and leaves the key set unchanged. -/
def dictInsert (keys : List String) (k : String) : List String :=
  if k ∈ keys then keys else keys ++ [k]

/-- `AgentExecutor.cancel_execution` (lines 225–232): if the id is active,
complete the context as cancelled, delete it from the active table and
return `True`; otherwise return `False`.  It does not touch the history. -/
def cancelExecution (st : ExecutorState) (execution_id : String) :
    ExecutorState × Bool :=
  if execution_id ∈ st.active then
    ({ st with active := st.active.erase execution_id }, true)
  else
    (st, false)

/-- The three ways `await asyncio.wait_for(self._execute_agent_internal …)`
can resolve inside `execute_agent`: a value, `asyncio.TimeoutError`, or any
other exception. -/
inductive InternalOutcome where
  | success
  | timeout
  | err (msg : String)
deriving DecidableEq, Repr

/-- The `status` field of the dict `execute_agent` returns on each branch. -/
def outcomeStatus : InternalOutcome → String
  | .success => "completed"
  | .timeout => "timeout"
  | .err _ => "error"

/-- The caller-visible part of the result dict of `execute_agent`
(`execution_id` and `status`; `result`/`error`/`steps`/`duration` carry the
branch payloads and are not needed by the claims). -/
structure RunReport where
  execution_id : String
  status : String
deriving DecidableEq, Repr

/-- One complete run of `AgentExecutor.execute_agent` (lines 51–111),
together with an arbitrary interleaving of `cancel_execution` calls.

* unknown agent: `raise ValueError(f"Agent '{agent_name}' not found")`
  before any context is created — modelled as `Except.error` with the
  executor state untouched;
* otherwise: create the context, register it in `active_executions`
  (line 67); then, at the suspension points of the `await`, any number of
  `cancel_execution` calls may run (`cancels` lists their arguments in
  order); the awaited body resolves as `outcome`; finally the `finally`
  block (lines 107–111) conditionally deletes the id from the active table
  and appends the context to `execution_history`. -/
def executeAgentRun (registry : List String) (st0 : ExecutorState)
    (agent_name : String) (nowMs : Nat) (outcome : InternalOutcome)
    (cancels : List String) : ExecutorState × Except String RunReport :=
  if agent_name ∈ registry then
    let ctx := mkExecutionContext agent_name nowMs
    let st1 : ExecutorState :=
      { st0 with active := dictInsert st0.active ctx.execution_id }
    let st2 := cancels.foldl (fun s c => (cancelExecution s c).1) st1
    let report : RunReport :=
      { execution_id := ctx.execution_id, status := outcomeStatus outcome }
    let st3 : ExecutorState :=
      { active :=
          if ctx.execution_id ∈ st2.active then st2.active.erase ctx.execution_id
          else st2.active
        history := st2.history ++ [ctx.execution_id] }
    (st3, .ok report)
  else
    (st0, .error ("Agent " ++ agent_name ++ " not found"))

/-! ### Events and the dispatch loop (`agent_executor.py`, lines 132–192)

`elysia.objects` defines the tagged event variants `Status`, `Result` and
`Error` that a capability's `__call__` yields.  `α` is the type of a
`Result`'s payload objects (`Result.objects`); a `Result`'s `metadata`,
`name` and `llm_message` fields are never read by the dispatch loop and are
omitted. -/

/-- An event yielded by one capability invocation. -/
inductive Event (α : Type) where
  | status (text : String)
  | result (objects : List α)
  | error (text : String)
deriving DecidableEq, Repr

/-- What one `async for result in tool_instance(...)` pass over a capability
does, as observed by `_execute_with_tools`:

* `events es` — the generator runs to completion yielding `es`;
* `initRaises msg` — `tool_class()` itself raises (line 154, inside the
  `try`), so no `tool_execution` step is recorded;
* `runRaises msg` — the generator raises while being consumed; the events
  yielded before the exception are discarded with the local `results` list.
-/
inductive ToolBehavior (α : Type) where
  | events (es : List (Event α))
  | initRaises (msg : String)
  | runRaises (msg : String)
deriving DecidableEq, Repr

/-- One entry of `agent.tools` together with the value its availability
predicate (`Tool.is_tool_available`) takes in the current context.
`_execute_with_tools` never consults `available` — the field is carried so
that this can be stated. -/
structure ToolSpec (α : Type) where
  name : String
  available : Bool
  behavior : ToolBehavior α
deriving DecidableEq, Repr

/-- The steps `_execute_with_tools` records on `context` while dispatching
(`add_step` calls at lines 155, 173 and 187). -/
inductive ExecStep (α : Type) where
  | tool_execution (tool : String)
  | tool_result (tool : String) (result : Option α)
  | tool_error (tool : String) (error : String)
deriving DecidableEq, Repr

/-- The dict `_execute_with_tools` returns: the first payload object of the
winning `Result`, or `{"message": "No result"}` when that `Result` has no
objects, or `{"error": "No suitable tool found or all tools failed"}` when
the loop exhausts every tool. -/
inductive DispatchResult (α : Type) where
  | payload (a : α)
  | noResultMsg
  | noToolFound
deriving DecidableEq, Repr

/-- `for result in results: if isinstance(result, Result): …` — the objects
of the first `Result` event in the collected event list, if any. -/
def firstResult {α : Type} : List (Event α) → Option (List α)
  | [] => none
  | .result objects :: _ => some objects
  | _ :: rest => firstResult rest

/-- `AgentExecutor._execute_with_tools`: iterate `agent.tools` in order;
per tool record a `tool_execution` step, consume its events, and return on
the first tool whose event list contains a `Result` (recording a
`tool_result` step); a tool that raises records a `tool_error` step and the
loop continues; if no tool yields a `Result` the loop falls through to the
explicit failure dict.  Returns the result together with the recorded
steps. -/
def executeWithTools {α : Type} : List (ToolSpec α) → DispatchResult α × List (ExecStep α)
  | [] => (.noToolFound, [])
  | t :: rest =>
    match t.behavior with
    | .initRaises msg =>
      let (r, s) := executeWithTools rest
      (r, .tool_error t.name msg :: s)
    | .runRaises msg =>
      let (r, s) := executeWithTools rest
      (r, .tool_execution t.name :: .tool_error t.name msg :: s)
    | .events es =>
      match firstResult es with
      | none =>
        let (r, s) := executeWithTools rest
        (r, .tool_execution t.name :: s)
      | some [] =>
        (.noResultMsg, [.tool_execution t.name, .tool_result t.name none])
      | some (h :: _) =>
        (.payload h, [.tool_execution t.name, .tool_result t.name (some h)])

/-- Whether a tool's run would short-circuit the dispatch loop: its
generator completes and its event list contains a `Result`. -/
def hasResultB {α : Type} : ToolBehavior α → Bool
  | .events es => (firstResult es).isSome
  | .initRaises _ => false
  | .runRaises _ => false

/-- The step block a non-winning tool leaves in the log. -/
def skippedSteps {α : Type} (t : ToolSpec α) : List (ExecStep α) :=
  match t.behavior with
  | .events _ => [.tool_execution t.name]
  | .initRaises msg => [.tool_error t.name msg]
  | .runRaises msg => [.tool_execution t.name, .tool_error t.name msg]

/-- Replace a tool's availability bit (used to state that the dispatch loop
is oblivious to availability). -/
def setAvailable {α : Type} (b : Bool) (t : ToolSpec α) : ToolSpec α :=
  { t with available := b }

/-! ### `SafeMath.__call__` (`custom_tools.py`, lines 102–168)

Python floats are modelled as rationals: every number the claims mention
(`[1,2,3]`, `[2,4]`, `6`, `6.0`, `3.0`) is exactly representable, and on
such inputs `sum`/`prod`/`min`/`max` and one division agree with float
arithmetic. The `numbers` input is taken in its already-coerced list form
(the list branch of lines 120–126 with every `float(p)` succeeding); the
string-splitting branch is not needed by any claim. -/

/-- Python `str.lower()` restricted to ASCII case mapping. -/
def pyLower (s : String) : String :=
  String.mk (s.data.map Char.toLower)

/-- Python `str.strip()` with no arguments: remove leading and trailing
whitespace. -/
def pyStrip (s : String) : String :=
  String.mk (((s.data.dropWhile Char.isWhitespace).reverse.dropWhile
    Char.isWhitespace).reverse)

/-- The payload object of `SafeMath`'s `Result`:
`{"operation": …, "value": …, "count": …}`. -/
structure MathObj where
  operation : String
  value : ℚ
  count : Nat
deriving DecidableEq, Repr

/-- Python `min` over a list (total here; `SafeMath` only reaches it with a
non-empty list). -/
def listMin : List ℚ → ℚ
  | [] => 0
  | h :: t => t.foldl min h

/-- Python `max` over a list (total here; `SafeMath` only reaches it with a
non-empty list). -/
def listMax : List ℚ → ℚ
  | [] => 0
  | h :: t => t.foldl max h

/-- The operation names accepted by the `match operation` at lines 139–154. -/
def supportedOps : List String := ["sum", "product", "min", "max", "mean"]

/-- The `Status` + `Result` pair `SafeMath` yields for a supported
operation (lines 159–168). -/
def safeMathOk (op : String) (value : ℚ) (n : Nat) : List (Event MathObj) :=
  [ .status ("Computed " ++ op ++ " over " ++ pyStr n ++ " numbers successfully."),
    .result [{ operation := op, value := value, count := n }] ]

/-- `SafeMath.__call__` on a list input whose elements all coerce: empty
list → `Error`; otherwise normalise the operation with `.lower().strip()`
and aggregate, yielding `Error` for an unsupported name (the source message
quotes the operation: "Unsupported operation '…'. Use one of: …"). -/
def safeMathCall (operation : String) (numbers : List ℚ) : List (Event MathObj) :=
  if numbers = [] then
    [.error "No numbers provided."]
  else
    let op := pyStrip (pyLower operation)
    if op = "sum" then safeMathOk op numbers.sum numbers.length
    else if op = "product" then safeMathOk op numbers.prod numbers.length
    else if op = "min" then safeMathOk op (listMin numbers) numbers.length
    else if op = "max" then safeMathOk op (listMax numbers) numbers.length
    else if op = "mean" then safeMathOk op (numbers.sum / numbers.length) numbers.length
    else
      [.error ("Unsupported operation " ++ op ++ ". Use one of: sum, product, min, max, mean.")]

/-- Whether an event list contains an `Error` event. -/
def hasError {α : Type} (es : List (Event α)) : Bool :=
  es.any fun e => match e with
    | .error _ => true
    | _ => false

/-- Whether an event list contains a `Result` event. -/
def hasResultEvent {α : Type} (es : List (Event α)) : Bool :=
  es.any fun e => match e with
    | .result _ => true
    | _ => false

/-! ### `EnvironmentSummary.__call__` (`custom_tools.py`, lines 186–212)

`tree_data.environment.environment` maps a tool name to a map from result
name to an ordered list of result batches; each batch `r` contributes
`len(r.get("objects", []))` objects.  A batch is modelled by its list of
objects (type `α`), so the environment is an association list
`tool name ↦ (result name ↦ list of batches)`. -/

/-- One entry of the summary list built by `EnvironmentSummary`. -/
structure SummaryEntry where
  tool : String
  result_name : String
  num_batches : Nat
  total_objects : Nat
deriving DecidableEq, Repr

/-- The summary list: iterate the environment, skip the reserved key
`"SelfInfo"` (line 192 `continue`), and emit one entry per
`(tool, result_name)` group. -/
def environmentSummary {α : Type} (env : List (String × List (String × List (List α)))) :
    List SummaryEntry :=
  env.flatMap fun p =>
    if p.1 = "SelfInfo" then []
    else p.2.map fun q =>
      { tool := p.1, result_name := q.1, num_batches := q.2.length,
        total_objects := (q.2.map List.length).sum }

/-! ### `HiddenStoreConditionalTool.is_tool_available`
(`custom_tools.py`, lines 270–271) -/

/-- The hidden environment `tree_data.environment.hidden_environment`
modelled as an ordered association list (`α` the stored value type). -/
def hiddenKeys {α : Type} (hidden_environment : List (String × α)) : List String :=
  hidden_environment.map Prod.fst

/-- `return "unlock" in tree_data.environment.hidden_environment` —
Python `in` on a dict tests key membership. -/
def hiddenStoreReaderAvailable {α : Type} (hidden_environment : List (String × α)) : Bool :=
  "unlock" ∈ hiddenKeys hidden_environment

/-! ### `MultiAgentOrchestrator` (`multi_agent.py`, lines 40–141)

`active_agents : Dict[str, AgentExecutor]` is modelled by its key list (the
per-agent executor values are never compared by the claims), the shared
`asyncio.Queue` by the list of messages put on it, and
`conversation_history` by its message list.  A `Message`'s `id`,
`metadata` and `timestamp` fields are derived bookkeeping the claims never
inspect and are omitted from the model. -/

/-- `Message(sender, recipient, content, message_type)`. -/
structure BusMessage where
  sender : String
  recipient : String
  content : String
  message_type : String
deriving DecidableEq, Repr

/-- The orchestrator's mutable state. -/
structure OrchestratorState where
  active_agents : List String
  message_queue : List BusMessage
  conversation_history : List BusMessage
deriving DecidableEq, Repr

/-- `start_agent` (lines 50–61): unknown name → `False`; otherwise insert
the agent (with a fresh executor) into the active pool and return `True`.
(The spawned `_process_agent_messages` consumption loop is a concurrent
reader of the shared queue; its effect on `execute_coordinated_task`'s
reads is absorbed into the read trace below.) -/
def startAgent (registry : List String) (st : OrchestratorState) (agent_name : String) :
    OrchestratorState × Bool :=
  if agent_name ∈ registry then
    ({ st with active_agents := dictInsert st.active_agents agent_name }, true)
  else
    (st, false)

/-- `stop_agent` (lines 63–69): delete from the active pool if present. -/
def stopAgent (st : OrchestratorState) (agent_name : String) :
    OrchestratorState × Bool :=
  if agent_name ∈ st.active_agents then
    ({ st with active_agents := st.active_agents.erase agent_name }, true)
  else
    (st, false)

/-- `send_message` (lines 71–75): put on the queue, append to the
conversation history, return `True`. -/
def sendMessage (st : OrchestratorState) (m : BusMessage) :
    OrchestratorState × Bool :=
  ({ st with
      message_queue := st.message_queue ++ [m]
      conversation_history := st.conversation_history ++ [m] }, true)

/-- `broadcast_message` (lines 77–87): for every active agent other than
the sender, build a `Message(sender, agent_name, content, message_type)`,
send it, and count it. -/
def broadcastMessage (st : OrchestratorState) (sender content message_type : String) :
    OrchestratorState × Nat :=
  st.active_agents.foldl
    (fun (p : OrchestratorState × Nat) agent_name =>
      if agent_name ≠ sender then
        ((sendMessage p.1 ⟨sender, agent_name, content, message_type⟩).1, p.2 + 1)
      else p)
    (st, 0)

/-- The messages a broadcast sends, in order. -/
def broadcastMessages (st : OrchestratorState) (sender content message_type : String) :
    List BusMessage :=
  (st.active_agents.filter (fun a => a ≠ sender)).map
    fun a => ⟨sender, a, content, message_type⟩

/-- The dict returned by `execute_coordinated_task` (lines 135–141).
`completed_at` is the `datetime.now().isoformat()` string at return time,
supplied as a parameter. -/
structure CoordResult where
  task : String
  coordinator : String
  participants : List String
  responses : List BusMessage
  completed_at : String
deriving DecidableEq, Repr

/-- What one `await asyncio.wait_for(self.message_queue.get(), timeout=30)`
in the barrier-wait loop observes: a message arriving `delay` seconds after
the read started.  The read returns the message when `delay ≤ 30` and
raises `asyncio.TimeoutError` otherwise.  The trace is an oracle for the
shared queue: the per-agent consumption loops started by `start_agent` race
this loop for the very same queue (spec §4.4's known risk), so what each
read yields is an input of the model, not a function of the queue
contents. -/
abbrev ReadTrace := List (Nat × BusMessage)

/-- The barrier-wait loop of `execute_coordinated_task` (lines 115–129):
`while len(responses) < len(participating_agents)`, pull from the queue
with a 30-second `wait_for`; on `TimeoutError` the surrounding `try` is
left and the loop ends; a pulled message is kept iff its sender is a
participant and its recipient is the coordinator. -/
def coordWait (participating_agents : List String) (coordinator_agent : String) :
    ReadTrace → List BusMessage → List BusMessage
  | [], responses' => responses'
  | (delay, m) :: rest, responses' =>
    if responses'.length < participating_agents.length then
      if delay > 30 then responses'
      else if m.sender ∈ participating_agents ∧ m.recipient = coordinator_agent then
        coordWait participating_agents coordinator_agent rest (responses' ++ [m])
      else
        coordWait participating_agents coordinator_agent rest responses'
    else responses'

/-- `execute_coordinated_task` (lines 89–141): start every participant,
send the coordination task message to the coordinator, run the barrier-wait
loop, stop every participant, and return the result record.  `now` is the
completion timestamp string. -/
def executeCoordinatedTask (registry : List String) (st : OrchestratorState)
    (task_description : String) (participating_agents : List String)
    (coordinator_agent : String) (trace : ReadTrace) (now : String) :
    OrchestratorState × CoordResult :=
  let st1 := participating_agents.foldl (fun s a => (startAgent registry s a).1) st
  let taskMsg : BusMessage :=
    ⟨"system", coordinator_agent,
      "Coordinate the following task: " ++ task_description, "task"⟩
  let st2 := (sendMessage st1 taskMsg).1
  let responses := coordWait participating_agents coordinator_agent trace []
  let st3 := participating_agents.foldl (fun s a => (stopAgent s a).1) st2
  (st3,
    { task := task_description, coordinator := coordinator_agent,
      participants := participating_agents, responses := responses,
      completed_at := now })

/-! ### Specification-side helper definitions (used only in statements) -/

/-- Value of a little-endian decimal digit list (inverse of `natDecAux`),
used to prove the decimal rendering injective. -/
def ofCharDigits : List Char → Nat
  | [] => 0
  | c :: cs => charVal c + 10 * ofCharDigits cs

/-- The messages the barrier-wait loop of `execute_coordinated_task` could
ever keep, in arrival order: those pulled before the first read that times
out (delay `> 30`) whose sender is a participant and whose recipient is the
coordinator. -/
def matchingReads (participating_agents : List String) (coordinator_agent : String)
    (trace : ReadTrace) : List BusMessage :=
  ((trace.takeWhile fun e => e.1 ≤ 30).map Prod.snd).filter
    fun m => m.sender ∈ participating_agents ∧ m.recipient = coordinator_agent

/-! ## Theorems -/

/-- **C7.** For every possible content of the hidden environment, the
hidden-store conditional capability's availability predicate
(`HiddenStoreConditionalTool.is_tool_available`) returns true if and only
if the key `"unlock"` is present in the hidden environment at the moment
the predicate is evaluated. -/
theorem hiddenStoreReader_available_iff_unlock {α : Type}
    (hidden_environment : List (String × α)) :
    hiddenStoreReaderAvailable hidden_environment = true ↔
      ∃ v : α, ("unlock", v) ∈ hidden_environment := by
  simp only [hiddenStoreReaderAvailable, hiddenKeys, decide_eq_true_eq, List.mem_map]
  constructor
  · rintro ⟨⟨k, v⟩, hmem, hk⟩
    have hk' : k = "unlock" := hk
    exact ⟨v, hk' ▸ hmem⟩
  · rintro ⟨v, hv⟩
    exact ⟨("unlock", v), hv, rfl⟩

/-- **C8.** For every environment content, including any content stored
under the reserved key `"SelfInfo"`, the summary produced by
`EnvironmentSummary` never contains an entry whose tool name is
`"SelfInfo"`: the reserved key is excluded from every summary. -/
theorem environmentSummary_excludes_SelfInfo {α : Type}
    (env : List (String × List (String × List (List α)))) :
    ∀ e ∈ environmentSummary env, e.tool ≠ "SelfInfo" := by
  intro e he
  rw [environmentSummary, List.mem_flatMap] at he
  obtain ⟨p, hp, hmem⟩ := he
  by_cases h : p.1 = "SelfInfo"
  · simp [h] at hmem
  · rw [if_neg h] at hmem
    obtain ⟨q, hq, rfl⟩ := List.mem_map.mp hmem
    simpa using h

/-- Witness for C8 at a concrete environment that stores content under the
reserved key. -/
theorem environmentSummary_excludes_SelfInfo_witness :
    ({ tool := "toolA", result_name := "r", num_batches := 1, total_objects := 2 }
        ∈ environmentSummary [("SelfInfo", [("self", [[0]])]), ("toolA", [("r", [[5, 6]])])])
    ∧ ({ tool := "toolA", result_name := "r", num_batches := 1,
          total_objects := 2 } : SummaryEntry).tool ≠ "SelfInfo" :=
  ⟨by decide,
    environmentSummary_excludes_SelfInfo
      [("SelfInfo", [("self", [[0]])]), ("toolA", [("r", [[5, 6]])])]
      { tool := "toolA", result_name := "r", num_batches := 1, total_objects := 2 }
      (by decide)⟩

/-- **C2.** For every agent name not present in the registry, calling
`execute_agent` with that name fails immediately with a not-found failure
propagated to the caller (an `Except.error`, not a normal result payload),
and the executor state is untouched: no execution context is registered in
the active-run table and nothing is appended to the history. -/
theorem executeAgent_unknown_agent_fails_fast (registry : List String)
    (st0 : ExecutorState) (agent_name : String) (nowMs : Nat)
    (outcome : InternalOutcome) (cancels : List String)
    (h : agent_name ∉ registry) :
    executeAgentRun registry st0 agent_name nowMs outcome cancels
      = (st0, .error ("Agent " ++ agent_name ++ " not found")) := by
  simp [executeAgentRun, h]

/-- Witness for C2: an unregistered name at a concrete state. -/
theorem executeAgent_unknown_agent_fails_fast_witness :
    ("ghost" ∉ ["math_agent", "text_agent"])
    ∧ executeAgentRun ["math_agent", "text_agent"] ⟨["m_1"], ["h_0"]⟩ "ghost" 5000
        .success ["m_1"]
        = (⟨["m_1"], ["h_0"]⟩, .error ("Agent " ++ "ghost" ++ " not found")) :=
  ⟨by decide,
    executeAgent_unknown_agent_fails_fast ["math_agent", "text_agent"]
      ⟨["m_1"], ["h_0"]⟩ "ghost" 5000 .success ["m_1"] (by decide)⟩

/-- `cancel_execution` never touches the execution history. -/
theorem cancelExecution_history (st : ExecutorState) (c : String) :
    ((cancelExecution st c).1).history = st.history := by
  unfold cancelExecution
  split <;> rfl

/-- A sequence of `cancel_execution` calls never touches the history. -/
theorem cancelFold_history (cancels : List String) (st : ExecutorState) :
    (cancels.foldl (fun s c => (cancelExecution s c).1) st).history = st.history := by
  induction cancels generalizing st with
  | nil => rfl
  | cons c rest ih =>
    rw [List.foldl_cons, ih, cancelExecution_history]

/-- `cancel_execution` can only lower the multiplicity of an id in the
active table. -/
theorem cancelExecution_count_le (st : ExecutorState) (c eid : String) :
    ((cancelExecution st c).1).active.count eid ≤ st.active.count eid := by
  unfold cancelExecution
  split
  · exact List.Sublist.count_le (List.erase_sublist _ _) eid
  · exact le_refl _

/-- A sequence of `cancel_execution` calls can only lower the multiplicity
of an id in the active table. -/
theorem cancelFold_count_le (cancels : List String) (st : ExecutorState) (eid : String) :
    ((cancels.foldl (fun s c => (cancelExecution s c).1) st).active.count eid)
      ≤ st.active.count eid := by
  induction cancels generalizing st with
  | nil => exact le_refl _
  | cons c rest ih =>
    exact le_trans (ih _) (cancelExecution_count_le st c eid)

/-- **C1.** For every run of `execute_agent` that creates an execution
context — on every terminal path (the awaited body completing, timing out,
or raising) and under any interleaving of `cancel_execution` calls (so in
particular when the run is cancelled) — the context's id is absent from the
active-run table afterwards and is appended to the execution history
exactly once (the final history is the initial history plus exactly one
occurrence of this run's context), and the call returns its report rather
than failing. -/
theorem executeAgent_cleanup_exactly_once (registry : List String)
    (st0 : ExecutorState) (agent_name : String) (nowMs : Nat)
    (outcome : InternalOutcome) (cancels : List String)
    (hreg : agent_name ∈ registry)
    (hfresh : executionId agent_name nowMs ∉ st0.active) :
    ((executeAgentRun registry st0 agent_name nowMs outcome cancels).1.history
        = st0.history ++ [executionId agent_name nowMs])
    ∧ (executionId agent_name nowMs
        ∉ (executeAgentRun registry st0 agent_name nowMs outcome cancels).1.active)
    ∧ ((executeAgentRun registry st0 agent_name nowMs outcome cancels).2
        = .ok { execution_id := executionId agent_name nowMs,
                status := outcomeStatus outcome }) := by
  have hz : st0.active.count (executionId agent_name nowMs) = 0 :=
    List.count_eq_zero.mpr hfresh
  simp only [executeAgentRun, hreg, if_true, mkExecutionContext]
  refine ⟨?_, ?_, trivial⟩
  · simp only [cancelFold_history]
  · have h1 : (dictInsert st0.active (executionId agent_name nowMs)).count
        (executionId agent_name nowMs) = 1 := by
      rw [dictInsert, if_neg hfresh, List.count_append, hz]
      simp
    have h2 := cancelFold_count_le cancels
      { st0 with active := dictInsert st0.active (executionId agent_name nowMs) }
      (executionId agent_name nowMs)
    rw [h1] at h2
    split
    · next hmem =>
      have := List.count_erase_self (executionId agent_name nowMs)
        ((cancels.foldl (fun s c => (cancelExecution s c).1)
          { st0 with
              active := dictInsert st0.active (executionId agent_name nowMs) }).active)
      exact List.count_eq_zero.mp (by omega)
    · next hmem => exact hmem

/-- Witness for C1: a registered agent, a fresh state, a timeout outcome
and a mid-run cancellation of that very run (plus an unrelated cancel). -/
theorem executeAgent_cleanup_exactly_once_witness :
    ("math_agent" ∈ ["math_agent"])
    ∧ (executionId "math_agent" 1500 ∉ (⟨["other_9"], ["old_1"]⟩ : ExecutorState).active)
    ∧ (((executeAgentRun ["math_agent"] ⟨["other_9"], ["old_1"]⟩ "math_agent" 1500
          .timeout [executionId "math_agent" 1500, "other_9"]).1.history
        = (⟨["other_9"], ["old_1"]⟩ : ExecutorState).history
            ++ [executionId "math_agent" 1500])
      ∧ (executionId "math_agent" 1500
          ∉ (executeAgentRun ["math_agent"] ⟨["other_9"], ["old_1"]⟩ "math_agent" 1500
              .timeout [executionId "math_agent" 1500, "other_9"]).1.active)
      ∧ ((executeAgentRun ["math_agent"] ⟨["other_9"], ["old_1"]⟩ "math_agent" 1500
            .timeout [executionId "math_agent" 1500, "other_9"]).2
          = .ok { execution_id := executionId "math_agent" 1500,
                  status := outcomeStatus .timeout })) :=
  ⟨by decide, by decide,
    executeAgent_cleanup_exactly_once ["math_agent"] ⟨["other_9"], ["old_1"]⟩
      "math_agent" 1500 .timeout [executionId "math_agent" 1500, "other_9"]
      (by decide) (by decide)⟩

/-- Dispatch over a prefix of tools none of which yields a `Result`: the
loop records each tool's step block in declared order and continues with
the rest. -/
theorem executeWithTools_over_skipped {α : Type} (pre rest : List (ToolSpec α))
    (hpre : ∀ p ∈ pre, hasResultB p.behavior = false) :
    executeWithTools (pre ++ rest)
      = ((executeWithTools rest).1,
          pre.flatMap skippedSteps ++ (executeWithTools rest).2) := by
  induction pre with
  | nil => simp
  | cons p pre' ih =>
    have hp := hpre p (List.mem_cons_self _ _)
    have hpre' : ∀ q ∈ pre', hasResultB q.behavior = false :=
      fun q hq => hpre q (List.mem_cons_of_mem _ hq)
    cases hb : p.behavior with
    | events es =>
      have hnone : firstResult es = none := by
        cases hfr : firstResult es with
        | none => rfl
        | some v => rw [hb] at hp; simp [hasResultB, hfr] at hp
      simp [executeWithTools, hb, hnone, ih hpre', skippedSteps]
    | initRaises msg => simp [executeWithTools, hb, ih hpre', skippedSteps]
    | runRaises msg => simp [executeWithTools, hb, ih hpre', skippedSteps]

/-- **C3.** For every agent and input, the dispatch loop
(`_execute_with_tools`) tries the agent's capabilities exactly in their
declared registration order; the first capability whose event sequence
contains a `Result` determines the run's result — its first payload object
— capabilities after it are never invoked (the outcome is independent of
everything after it), and if no capability yields a `Result` the run
returns the explicit failure payload (the dispatch function is total — it
returns, never raises). -/
theorem dispatch_first_result_wins {α : Type} :
    (∀ (pre post : List (ToolSpec α)) (t : ToolSpec α),
        (∀ p ∈ pre, hasResultB p.behavior = false) →
        ∀ (es : List (Event α)) (x : α) (tl : List α),
          t.behavior = .events es → firstResult es = some (x :: tl) →
          executeWithTools (pre ++ t :: post)
            = (.payload x,
                pre.flatMap skippedSteps
                  ++ [.tool_execution t.name, .tool_result t.name (some x)]))
    ∧ (∀ (pre post post' : List (ToolSpec α)) (t : ToolSpec α),
        (∀ p ∈ pre, hasResultB p.behavior = false) →
        hasResultB t.behavior = true →
          executeWithTools (pre ++ t :: post) = executeWithTools (pre ++ t :: post'))
    ∧ (∀ tools : List (ToolSpec α),
        (∀ p ∈ tools, hasResultB p.behavior = false) →
          executeWithTools tools = (.noToolFound, tools.flatMap skippedSteps)) := by
  refine ⟨?_, ?_, ?_⟩
  · intro pre post t hpre es x tl ht hfr
    rw [executeWithTools_over_skipped pre _ hpre]
    simp [executeWithTools, ht, hfr]
  · intro pre post post' t hpre hres
    rw [executeWithTools_over_skipped pre _ hpre,
      executeWithTools_over_skipped pre _ hpre]
    cases hb : t.behavior with
    | events es =>
      cases hfr : firstResult es with
      | none => rw [hb] at hres; simp [hasResultB, hfr] at hres
      | some objs => cases objs <;> simp [executeWithTools, hb, hfr]
    | initRaises msg => rw [hb] at hres; simp [hasResultB] at hres
    | runRaises msg => rw [hb] at hres; simp [hasResultB] at hres
  · intro tools htools
    have := executeWithTools_over_skipped tools [] htools
    simpa [executeWithTools] using this

/-- Witness for C3: a raising tool, then a `Result`-yielding tool, then a
tool that is never reached. -/
theorem dispatch_first_result_wins_witness :
    (∀ p ∈ [(⟨"tell_a_joke", true, .initRaises "TypeError"⟩ : ToolSpec Nat)],
        hasResultB p.behavior = false)
    ∧ executeWithTools
        [(⟨"tell_a_joke", true, .initRaises "TypeError"⟩ : ToolSpec Nat),
          ⟨"safe_math", true, .events [.status "ok", .result [7]]⟩,
          ⟨"environment_summary", true, .events [.result [9]]⟩]
        = (.payload 7,
            [.tool_error "tell_a_joke" "TypeError",
              .tool_execution "safe_math", .tool_result "safe_math" (some 7)]) :=
  ⟨by decide, by
    have := (dispatch_first_result_wins (α := Nat)).1
      [⟨"tell_a_joke", true, .initRaises "TypeError"⟩]
      [⟨"environment_summary", true, .events [.result [9]]⟩]
      ⟨"safe_math", true, .events [.status "ok", .result [7]]⟩
      (by decide) [.status "ok", .result [7]] 7 [] rfl (by decide)
    simpa using this⟩

/-- **C4, counterexample.** The dispatch loop invokes a capability whose
availability predicate is false: with the hidden store empty,
`hidden_store_reader`'s `is_tool_available` is `False`, yet
`_execute_with_tools` records a `tool_execution` step for it. -/
theorem dispatch_invokes_unavailable_tool :
    ((⟨"hidden_store_reader", false,
        .events [.error "Hidden key unlock not present."]⟩ : ToolSpec Nat).available
      = false)
    ∧ (executeWithTools
        [(⟨"hidden_store_reader", false,
            .events [.error "Hidden key unlock not present."]⟩ : ToolSpec Nat)]).2
        = [.tool_execution "hidden_store_reader"] := by
  decide

/-- **C4, amended.** During dispatch, `_execute_with_tools` never consults
the availability predicate: its outcome (result and step log) is invariant
under arbitrarily rewriting every capability's availability bit, so a
capability whose availability predicate is false is invoked exactly as if
it were available. -/
theorem dispatch_ignores_availability {α : Type} (tools : List (ToolSpec α)) (b : Bool) :
    executeWithTools (tools.map (setAvailable b)) = executeWithTools tools := by
  induction tools with
  | nil => rfl
  | cons t rest ih =>
    simp only [List.map_cons]
    cases hb : t.behavior with
    | events es =>
      cases hfr : firstResult es with
      | none => simp [executeWithTools, setAvailable, hb, hfr, ih]
      | some objs => cases objs <;> simp [executeWithTools, setAvailable, hb, hfr]
    | initRaises msg => simp [executeWithTools, setAvailable, hb, ih]
    | runRaises msg => simp [executeWithTools, setAvailable, hb, ih]

/-- **C6, counterexample.** The operation name `"Sum"` is outside
`{sum, product, min, max, mean}`, yet `SafeMath` yields a `Result` (value
`6`) and no `Error` for it, because the implementation first normalises the
name with `.lower().strip()`.  So "for every operation name outside
{sum, product, min, max, mean} it yields an Error event and no Result
event" fails as stated. -/
theorem safeMath_unnormalized_op_counterexample :
    ("Sum" ∉ supportedOps)
    ∧ safeMathCall "Sum" [1, 2, 3]
        = [.status "Computed sum over 3 numbers successfully.",
            .result [{ operation := "sum", value := 6, count := 3 }]]
    ∧ hasError (safeMathCall "Sum" [1, 2, 3]) = false
    ∧ hasResultEvent (safeMathCall "Sum" [1, 2, 3]) = true := by
  refine ⟨by decide, ?_, by decide, by decide⟩
  norm_num [safeMathCall, safeMathOk]
  decide

/-- **C6, amended.** `SafeMath` satisfies the example aggregation
semantics: operation `"sum"` on `[1,2,3]` yields a `Result` with value `6`,
`"product"` on `[1,2,3]` value `6`, `"mean"` on `[2,4]` value `3.0`; and
for every operation name whose lowercased, stripped form is outside
`{sum, product, min, max, mean}` (and any numbers input) it yields an
`Error` event and no `Result` event. -/
theorem safeMath_aggregation_spec :
    (safeMathCall "sum" [1, 2, 3] = safeMathOk "sum" 6 3)
    ∧ (safeMathCall "product" [1, 2, 3] = safeMathOk "product" 6 3)
    ∧ (safeMathCall "mean" [2, 4] = safeMathOk "mean" 3 2)
    ∧ ∀ (operation : String) (numbers : List ℚ),
        pyStrip (pyLower operation) ∉ supportedOps →
          hasError (safeMathCall operation numbers) = true
          ∧ hasResultEvent (safeMathCall operation numbers) = false := by
  refine ⟨?_, ?_, ?_, ?_⟩
  · have hs : pyStrip (pyLower "sum") = "sum" := by decide
    have h6 : ([1, 2, 3] : List ℚ).sum = 6 := by norm_num
    simp [safeMathCall, hs, h6]
  · have hs : pyStrip (pyLower "product") = "product" := by decide
    have h6 : ([1, 2, 3] : List ℚ).prod = 6 := by norm_num
    simp [safeMathCall, hs, h6]
  · have hs : pyStrip (pyLower "mean") = "mean" := by decide
    simp [safeMathCall, hs]
    norm_num
  · intro operation numbers hop
    by_cases hn : numbers = []
    · simp [safeMathCall, hn, hasError, hasResultEvent]
    · have h1 : pyStrip (pyLower operation) ≠ "sum" := by
        intro h; exact hop (by rw [h]; decide)
      have h2 : pyStrip (pyLower operation) ≠ "product" := by
        intro h; exact hop (by rw [h]; decide)
      have h3 : pyStrip (pyLower operation) ≠ "min" := by
        intro h; exact hop (by rw [h]; decide)
      have h4 : pyStrip (pyLower operation) ≠ "max" := by
        intro h; exact hop (by rw [h]; decide)
      have h5 : pyStrip (pyLower operation) ≠ "mean" := by
        intro h; exact hop (by rw [h]; decide)
      simp [safeMathCall, hn, h1, h2, h3, h4, h5, hasError, hasResultEvent]

/-- Witness for C6's general clause: an unsupported operation name. -/
theorem safeMath_aggregation_spec_witness :
    (pyStrip (pyLower "gcd") ∉ supportedOps)
    ∧ hasError (safeMathCall "gcd" [1]) = true
    ∧ hasResultEvent (safeMathCall "gcd" [1]) = false :=
  ⟨by decide, (safeMath_aggregation_spec.2.2.2 "gcd" [1] (by decide)).1,
    (safeMath_aggregation_spec.2.2.2 "gcd" [1] (by decide)).2⟩

/-- In a duplicate-free list, filtering for one element yields length 1 or
0 according to membership. -/
theorem length_filter_eq_of_nodup {α : Type} [DecidableEq α] (r : α) :
    ∀ l : List α, l.Nodup →
      (l.filter fun a => a = r).length = if r ∈ l then 1 else 0 := by
  intro l hl
  induction l with
  | nil => simp
  | cons a t ih =>
    rcases List.nodup_cons.mp hl with ⟨hat, ht⟩
    rw [List.filter_cons]
    by_cases har : a = r
    · subst har
      rw [if_pos (by simp), List.length_cons, ih ht, if_neg hat,
        if_pos (List.mem_cons_self a t)]
    · rw [if_neg (by simp [har]), ih ht]
      by_cases hrt : r ∈ t
      · rw [if_pos hrt, if_pos (List.mem_cons_of_mem a hrt)]
      · rw [if_neg hrt, if_neg (show r ∉ a :: t from fun hmem => by
          rcases List.mem_cons.mp hmem with h | h
          · exact har h.symm
          · exact hrt h)]

/-- Unrolling the `broadcast_message` loop: it sends exactly one message
per active agent other than the sender, in pool order, appending each to
the queue and the history and counting it. -/
theorem broadcast_foldl (sender content mtype : String) (l : List String) :
    ∀ (s : OrchestratorState) (n : Nat),
      l.foldl
        (fun (p : OrchestratorState × Nat) agent_name =>
          if agent_name ≠ sender then
            ((sendMessage p.1 ⟨sender, agent_name, content, mtype⟩).1, p.2 + 1)
          else p)
        (s, n)
      = ({ s with
            message_queue := s.message_queue
              ++ (l.filter fun a => a ≠ sender).map
                  (fun a => ⟨sender, a, content, mtype⟩),
            conversation_history := s.conversation_history
              ++ (l.filter fun a => a ≠ sender).map
                  (fun a => ⟨sender, a, content, mtype⟩) },
          n + (l.filter fun a => a ≠ sender).length) := by
  induction l with
  | nil => intro s n; simp
  | cons a rest ih =>
    intro s n
    rw [List.foldl_cons]
    by_cases ha : a = sender
    · have hstep : (if a ≠ sender then
          ((sendMessage (s, n).1 ⟨sender, a, content, mtype⟩).1, (s, n).2 + 1)
        else (s, n)) = (s, n) := by
        simp [ha]
      rw [hstep, ih]
      simp [List.filter_cons, ha]
    · have hstep : (if a ≠ sender then
          ((sendMessage (s, n).1 ⟨sender, a, content, mtype⟩).1, (s, n).2 + 1)
        else (s, n))
          = ({ s with
                message_queue := s.message_queue
                  ++ [(⟨sender, a, content, mtype⟩ : BusMessage)],
                conversation_history := s.conversation_history
                  ++ [(⟨sender, a, content, mtype⟩ : BusMessage)] }, n + 1) := by
        simp [ha, sendMessage]
      rw [hstep, ih]
      rw [Prod.ext_iff]
      constructor
      · simp only [List.filter_cons]
        rw [if_pos (by simp [ha])]
        simp [List.append_assoc]
      · simp only [List.filter_cons]
        rw [if_pos (by simp [ha])]
        simp only [List.length_cons]
        omega

/-- **C10.** `broadcast_message` enqueues exactly one message to every
currently active agent except the sender itself (the sender never receives
its own broadcast, even when it is active), appends each such message to
the conversation history, and returns the number of messages sent, which
equals the number of active agents other than the sender. -/
theorem broadcast_one_message_per_active_agent (st : OrchestratorState)
    (sender content message_type : String) (hnd : st.active_agents.Nodup) :
    (broadcastMessage st sender content message_type
      = ({ st with
            message_queue := st.message_queue
              ++ broadcastMessages st sender content message_type,
            conversation_history := st.conversation_history
              ++ broadcastMessages st sender content message_type },
          (broadcastMessages st sender content message_type).length))
    ∧ ((broadcastMessages st sender content message_type).length
        = (st.active_agents.filter fun a => a ≠ sender).length)
    ∧ (∀ m ∈ broadcastMessages st sender content message_type,
        m.sender = sender ∧ m.recipient ≠ sender)
    ∧ (∀ r : String,
        ((broadcastMessages st sender content message_type).filter
            fun m => m.recipient = r).length
          = if r ∈ st.active_agents ∧ r ≠ sender then 1 else 0) := by
  refine ⟨?_, ?_, ?_, ?_⟩
  · rw [broadcastMessage, broadcast_foldl, broadcastMessages]
    simp
  · rw [broadcastMessages, List.length_map]
  · intro m hm
    rw [broadcastMessages] at hm
    obtain ⟨a, ha, rfl⟩ := List.mem_map.mp hm
    exact ⟨rfl, by simpa using (List.mem_filter.mp ha).2⟩
  · intro r
    rw [broadcastMessages, List.filter_map, List.length_map]
    have hnd' : (st.active_agents.filter fun a => a ≠ sender).Nodup :=
      hnd.filter _
    have := length_filter_eq_of_nodup r _ hnd'
    rw [show ((fun m => decide (BusMessage.recipient m = r)) ∘
          fun a => (⟨sender, a, content, message_type⟩ : BusMessage))
        = fun a => decide (a = r) from rfl]
    rw [this]
    simp [List.mem_filter]

/-- Witness for C10: a three-agent pool where the sender is itself
active. -/
theorem broadcast_one_message_per_active_agent_witness :
    (["coordinator", "worker1", "worker2"] : List String).Nodup
    ∧ (broadcastMessage ⟨["coordinator", "worker1", "worker2"], [], []⟩
        "worker1" "hello" "text").2
        = (broadcastMessages ⟨["coordinator", "worker1", "worker2"], [], []⟩
            "worker1" "hello" "text").length :=
  ⟨by decide, by
    have := (broadcast_one_message_per_active_agent
      ⟨["coordinator", "worker1", "worker2"], [], []⟩ "worker1" "hello" "text"
      (by decide)).1
    rw [this]⟩

/-- The barrier-wait loop keeps exactly the matching messages pulled before
the first timed-out read, truncated to the number of participants minus the
responses already accumulated. -/
theorem coordWait_eq_take (participating_agents : List String) (coordinator_agent : String) :
    ∀ (trace : ReadTrace) (acc : List BusMessage),
      coordWait participating_agents coordinator_agent trace acc
        = acc ++ (matchingReads participating_agents coordinator_agent trace).take
            (participating_agents.length - acc.length) := by
  intro trace
  induction trace with
  | nil => intro acc; simp [coordWait, matchingReads]
  | cons e rest ih =>
    intro acc
    obtain ⟨d, m⟩ := e
    rw [coordWait]
    by_cases hlen : acc.length < participating_agents.length
    · rw [if_pos hlen]
      by_cases hd : d > 30
      · rw [if_pos hd]
        have hmr : matchingReads participating_agents coordinator_agent ((d, m) :: rest)
            = [] := by
          simp [matchingReads, List.takeWhile_cons, show ¬d ≤ 30 by omega]
        rw [hmr]
        simp
      · rw [if_neg hd]
        have hd' : d ≤ 30 := by omega
        by_cases hm : m.sender ∈ participating_agents
            ∧ m.recipient = coordinator_agent
        · rw [if_pos hm, ih]
          have hmr : matchingReads participating_agents coordinator_agent
              ((d, m) :: rest)
              = m :: matchingReads participating_agents coordinator_agent rest := by
            simp [matchingReads, List.takeWhile_cons, hd', hm.1, hm.2]
          rw [hmr, List.length_append, List.length_singleton]
          have hn : participating_agents.length - acc.length
              = (participating_agents.length - (acc.length + 1)) + 1 := by omega
          rw [hn, List.take_succ_cons]
          simp
        · rw [if_neg hm, ih]
          have hmr : matchingReads participating_agents coordinator_agent
              ((d, m) :: rest)
              = matchingReads participating_agents coordinator_agent rest := by
            simp only [matchingReads, List.takeWhile_cons]
            rw [if_pos (by simpa using hd')]
            simp only [List.map_cons, List.filter_cons]
            rw [if_neg (by simpa using hm)]
          rw [hmr]
    · rw [if_neg hlen]
      have h0 : participating_agents.length - acc.length = 0 := by omega
      rw [h0]
      simp

/-- Once absent from the active pool, an agent stays absent across any
sequence of `stop_agent` calls. -/
theorem stopFold_not_mem (agents : List String) :
    ∀ (st : OrchestratorState) (p : String), p ∉ st.active_agents →
      p ∉ (agents.foldl (fun s a => (stopAgent s a).1) st).active_agents := by
  induction agents with
  | nil => intro st p h; exact h
  | cons a rest ih =>
    intro st p h
    rw [List.foldl_cons]
    apply ih
    unfold stopAgent
    split
    · exact fun hmem => h (List.erase_subset _ _ hmem)
    · exact h

/-- `stop_agent` preserves the dict key invariant. -/
theorem stopAgent_nodup (st : OrchestratorState) (a : String)
    (h : st.active_agents.Nodup) : ((stopAgent st a).1).active_agents.Nodup := by
  unfold stopAgent
  split
  · exact h.erase a
  · exact h

/-- Stopping every listed agent leaves none of them in the active pool
(under the dict key invariant). -/
theorem stopFold_removes (agents : List String) :
    ∀ st : OrchestratorState, st.active_agents.Nodup →
      ∀ p ∈ agents,
        p ∉ (agents.foldl (fun s a => (stopAgent s a).1) st).active_agents := by
  induction agents with
  | nil => intro st _ p hp; cases hp
  | cons a rest ih =>
    intro st hnd p hp
    rw [List.foldl_cons]
    rcases List.mem_cons.mp hp with rfl | hp'
    · apply stopFold_not_mem
      unfold stopAgent
      split
      · exact hnd.not_mem_erase
      · next hmem => exact hmem
    · exact ih _ (stopAgent_nodup st a hnd) p hp'

/-- Python dict insertion preserves the no-duplicate-keys invariant. -/
theorem dictInsert_nodup (l : List String) (k : String) (h : l.Nodup) :
    (dictInsert l k).Nodup := by
  rw [dictInsert]
  split
  · exact h
  · next hk =>
    rw [List.nodup_append]
    exact ⟨h, List.nodup_singleton k, by simpa [List.disjoint_singleton] using hk⟩

/-- Starting any sequence of agents preserves the dict key invariant. -/
theorem startFold_nodup (registry agents : List String) :
    ∀ st : OrchestratorState, st.active_agents.Nodup →
      ((agents.foldl (fun s a => (startAgent registry s a).1) st).active_agents).Nodup := by
  induction agents with
  | nil => intro st h; exact h
  | cons a rest ih =>
    intro st h
    rw [List.foldl_cons]
    apply ih
    unfold startAgent
    split
    · exact dictInsert_nodup _ _ h
    · exact h

/-- **C9, counterexample.** The barrier-wait loop of
`execute_coordinated_task` stops as soon as the *count* of matching
messages reaches the number of participants, not when "every participant
has been observed once", and its 30-second timeout bounds each individual
queue read, not the whole wait.  Concretely, with participants
`["alpha","beta"]` and coordinator `"coord"`: (i) two prompt messages both
from `"alpha"` end the wait with two responses although `"beta"` was never
observed and no read timed out (both delays are `0`); (ii) two matching
messages arriving after 20 s each are both collected although the whole
wait lasted `20 + 20 > 30` seconds, so no fixed overall timeout was
enforced. -/
theorem coordinatedTask_counterexample :
    (((executeCoordinatedTask ["alpha", "beta", "coord"] ⟨[], [], []⟩ "t"
          ["alpha", "beta"] "coord"
          [(0, ⟨"alpha", "coord", "r1", "response"⟩),
            (0, ⟨"alpha", "coord", "r2", "response"⟩)] "ts").2.responses.map
        BusMessage.sender)
      = ["alpha", "alpha"])
    ∧ ("beta" ∉ ((executeCoordinatedTask ["alpha", "beta", "coord"] ⟨[], [], []⟩ "t"
          ["alpha", "beta"] "coord"
          [(0, ⟨"alpha", "coord", "r1", "response"⟩),
            (0, ⟨"alpha", "coord", "r2", "response"⟩)] "ts").2.responses.map
        BusMessage.sender))
    ∧ ((executeCoordinatedTask ["alpha", "beta", "coord"] ⟨[], [], []⟩ "t"
          ["alpha", "beta"] "coord"
          [(20, ⟨"alpha", "coord", "r1", "response"⟩),
            (20, ⟨"beta", "coord", "r2", "response"⟩)] "ts").2.responses.length = 2)
    ∧ (20 + 20 > 30) := by
  decide

/-- **C9, amended.** `execute_coordinated_task` accumulates exactly those
pulled messages whose sender is in the participant set and whose recipient
is the coordinator, stopping when either the count of collected responses
reaches the number of participants (not necessarily distinct senders) or a
single queue read exceeds the fixed 30-second timeout (the timeout is
per-read, not overall), whichever occurs first; afterwards every
participant is absent from the active pool, the timeout raises no error
(the function totally returns its record), and the returned record reports
the task, coordinator, participants, all collected responses (possibly
fewer than the participants), and the completion timestamp. -/
theorem coordinatedTask_spec (registry : List String) (st : OrchestratorState)
    (task_description : String) (participating_agents : List String)
    (coordinator_agent : String) (trace : ReadTrace) (now : String)
    (hnd : st.active_agents.Nodup) :
    ((executeCoordinatedTask registry st task_description participating_agents
          coordinator_agent trace now).2.responses
        = (matchingReads participating_agents coordinator_agent trace).take
            participating_agents.length)
    ∧ (∀ m ∈ (executeCoordinatedTask registry st task_description
          participating_agents coordinator_agent trace now).2.responses,
        m.sender ∈ participating_agents ∧ m.recipient = coordinator_agent)
    ∧ ((executeCoordinatedTask registry st task_description participating_agents
          coordinator_agent trace now).2.responses.length
        ≤ participating_agents.length)
    ∧ (∀ p ∈ participating_agents,
        p ∉ (executeCoordinatedTask registry st task_description
              participating_agents coordinator_agent trace now).1.active_agents)
    ∧ ((executeCoordinatedTask registry st task_description participating_agents
          coordinator_agent trace now).2.task = task_description)
    ∧ ((executeCoordinatedTask registry st task_description participating_agents
          coordinator_agent trace now).2.coordinator = coordinator_agent)
    ∧ ((executeCoordinatedTask registry st task_description participating_agents
          coordinator_agent trace now).2.participants = participating_agents)
    ∧ ((executeCoordinatedTask registry st task_description participating_agents
          coordinator_agent trace now).2.completed_at = now) := by
  have hresp : (executeCoordinatedTask registry st task_description
      participating_agents coordinator_agent trace now).2.responses
      = (matchingReads participating_agents coordinator_agent trace).take
          participating_agents.length := by
    simp only [executeCoordinatedTask]
    rw [coordWait_eq_take]
    simp
  refine ⟨hresp, ?_, ?_, ?_, rfl, rfl, rfl, rfl⟩
  · intro m hm
    rw [hresp] at hm
    have hm' := List.take_subset _ _ hm
    rw [matchingReads] at hm'
    have h2 := (List.mem_filter.mp hm').2
    simpa using h2
  · rw [hresp]
    exact List.length_take_le _ _
  · intro p hp
    simp only [executeCoordinatedTask]
    apply stopFold_removes participating_agents _ ?_ p hp
    exact startFold_nodup registry participating_agents st hnd

/-- Witness for C9: two participants, one prompt matching response, then a
read that times out — the record is returned with a single response. -/
theorem coordinatedTask_spec_witness :
    ((⟨[], [], []⟩ : OrchestratorState).active_agents.Nodup)
    ∧ ((executeCoordinatedTask ["alpha", "beta", "coord"] ⟨[], [], []⟩ "t"
          ["alpha", "beta"] "coord"
          [(5, ⟨"alpha", "coord", "r1", "response"⟩),
            (40, ⟨"beta", "coord", "r2", "response"⟩)] "ts").2.responses
        = (matchingReads ["alpha", "beta"] "coord"
            [(5, ⟨"alpha", "coord", "r1", "response"⟩),
              (40, ⟨"beta", "coord", "r2", "response"⟩)]).take
            (["alpha", "beta"] : List String).length) :=
  ⟨by decide,
    (coordinatedTask_spec ["alpha", "beta", "coord"] ⟨[], [], []⟩ "t"
      ["alpha", "beta"] "coord"
      [(5, ⟨"alpha", "coord", "r1", "response"⟩),
        (40, ⟨"beta", "coord", "r2", "response"⟩)] "ts" (by decide)).1⟩

/-- The value of a decimal digit character recovers the digit. -/
theorem charVal_digitChar (d : Nat) (h : d < 10) :
    charVal (Nat.digitChar d) = d := by
  interval_cases d <;> decide

/-- A decimal digit character is never the id separator. -/
theorem digitChar_ne_underscore (d : Nat) (h : d < 10) :
    Nat.digitChar d ≠ '_' := by
  interval_cases d <;> decide

/-- The digit run of `natDecAux` never contains the separator. -/
theorem underscore_not_mem_natDecAux :
    ∀ (fuel n : Nat), '_' ∉ natDecAux fuel n := by
  intro fuel
  induction fuel with
  | zero => intro n; simp [natDecAux]
  | succ f ih =>
    intro n
    rw [natDecAux]
    by_cases h0 : n = 0
    · simp [h0]
    · rw [if_neg h0]
      intro hmem
      rcases List.mem_cons.mp hmem with h | h
      · exact digitChar_ne_underscore (n % 10) (Nat.mod_lt _ (by norm_num)) h.symm
      · exact ih (n / 10) h

/-- Python's decimal rendering never contains the separator `'_'`. -/
theorem underscore_not_mem_natDecimalChars (n : Nat) :
    '_' ∉ natDecimalChars n := by
  rw [natDecimalChars]
  by_cases h0 : n = 0
  · simp [h0]
  · rw [if_neg h0]
    intro hmem
    exact underscore_not_mem_natDecAux n n (List.mem_reverse.mp hmem)

/-- The little-endian digit run evaluates back to the rendered number. -/
theorem ofCharDigits_natDecAux :
    ∀ (fuel n : Nat), n ≤ fuel → ofCharDigits (natDecAux fuel n) = n := by
  intro fuel
  induction fuel with
  | zero =>
    intro n h
    interval_cases n
    rfl
  | succ f ih =>
    intro n h
    by_cases h0 : n = 0
    · subst h0; rfl
    · rw [natDecAux, if_neg h0, ofCharDigits]
      rw [charVal_digitChar _ (Nat.mod_lt _ (by norm_num))]
      rw [ih (n / 10) (by omega)]
      omega

/-- Python's decimal rendering of a natural number is injective. -/
theorem natDecimalChars_inj {n m : Nat}
    (h : natDecimalChars n = natDecimalChars m) : n = m := by
  by_cases hn : n = 0 <;> by_cases hm : m = 0
  · omega
  · exfalso
    rw [natDecimalChars, if_pos hn, natDecimalChars, if_neg hm] at h
    have hr : natDecAux m m = ['0'] := by
      have := congrArg List.reverse h
      simpa using this.symm
    have h0 := ofCharDigits_natDecAux m m le_rfl
    rw [hr] at h0
    have hz : ofCharDigits ['0'] = 0 := by decide
    rw [hz] at h0
    exact hm h0.symm
  · exfalso
    rw [natDecimalChars, if_neg hn, natDecimalChars, if_pos hm] at h
    have hr : natDecAux n n = ['0'] := by
      have := congrArg List.reverse h
      simpa using this
    have h0 := ofCharDigits_natDecAux n n le_rfl
    rw [hr] at h0
    have hz : ofCharDigits ['0'] = 0 := by decide
    rw [hz] at h0
    exact hn h0.symm
  · rw [natDecimalChars, if_neg hn, natDecimalChars, if_neg hm] at h
    have h' := congrArg List.reverse h
    simp only [List.reverse_reverse] at h'
    have e1 := ofCharDigits_natDecAux n n le_rfl
    have e2 := ofCharDigits_natDecAux m m le_rfl
    rw [← e1, ← e2, h']

/-- Splitting at a separator that occurs in neither tail is unambiguous. -/
theorem append_underscore_inj :
    ∀ (a b d1 d2 : List Char), '_' ∉ d1 → '_' ∉ d2 →
      a ++ '_' :: d1 = b ++ '_' :: d2 → a = b ∧ d1 = d2 := by
  intro a
  induction a with
  | nil =>
    intro b d1 d2 h1 h2 h
    cases b with
    | nil => simpa using h
    | cons c bs =>
      simp only [List.nil_append, List.cons_append, List.cons.injEq] at h
      obtain ⟨hc, hrest⟩ := h
      exfalso
      apply h1
      rw [hrest]
      exact List.mem_append_right _ (List.mem_cons_self _ _)
  | cons x as ih =>
    intro b d1 d2 h1 h2 h
    cases b with
    | nil =>
      simp only [List.cons_append, List.nil_append, List.cons.injEq] at h
      obtain ⟨hc, hrest⟩ := h
      exfalso
      apply h2
      rw [← hrest]
      exact List.mem_append_right _ (List.mem_cons_self _ _)
    | cons y bs =>
      simp only [List.cons_append, List.cons.injEq] at h
      obtain ⟨hxy, hrest⟩ := h
      obtain ⟨hab, hd⟩ := ih bs d1 d2 h1 h2 hrest
      exact ⟨by rw [hxy, hab], hd⟩

/-- The character data of an execution id: the agent name, the separator,
then the decimal rendering of the creation second. -/
theorem executionId_data (name : String) (t : Nat) :
    (executionId name t).data = name.data ++ '_' :: natDecimalChars (t / 1000) := by
  rw [executionId, String.data_append, String.data_append]
  have hu : ("_" : String).data = ['_'] := rfl
  rw [hu, pyStr]
  simp

/-- **C5, counterexample.** Two distinct runs of the same agent — creation
instants 1100 ms and 1900 ms, both in whole second 1 — receive the very
same execution id, because the id only uses `int(time.time())`.  So
"for any two distinct runs the execution ids they receive are distinct"
fails as stated. -/
theorem executionId_collision :
    (1100 : Nat) ≠ 1900
    ∧ executionId "math_agent" 1100 = executionId "math_agent" 1900 := by
  decide

/-- **C5, amended.** Execution ids are derived from the agent name and the
whole second of creation, and are distinct exactly when that pair differs:
two runs receive equal ids if and only if they have the same agent name and
their creation instants fall in the same whole second — so two runs of the
same agent within one second collide, and all other pairs of runs receive
distinct ids. -/
theorem executionId_eq_iff (n1 : String) (t1 : Nat) (n2 : String) (t2 : Nat) :
    executionId n1 t1 = executionId n2 t2 ↔ (n1 = n2 ∧ t1 / 1000 = t2 / 1000) := by
  constructor
  · intro h
    have hd : (executionId n1 t1).data = (executionId n2 t2).data := by rw [h]
    rw [executionId_data, executionId_data] at hd
    obtain ⟨hname, hdec⟩ := append_underscore_inj _ _ _ _
      (underscore_not_mem_natDecimalChars _) (underscore_not_mem_natDecimalChars _) hd
    exact ⟨String.ext hname, natDecimalChars_inj hdec⟩
  · rintro ⟨rfl, h⟩
    rw [executionId, executionId, h]

end Elysia
